import Mathlib

/-
Verification of the outbound mail-delivery layer of the YAMN-TOR remailer
(src/mail.go). Go strings are modelled as lists of characters; Go's
strings.Contains / strings.HasSuffix become list infix / suffix relations
(a single-character Contains is plain membership). Effectful collaborators
(DNS, the wall clock, stdlib date and address parsing, the delivery sink,
the network) are passed in as explicit oracle parameters, and each
function's observable actions are returned as data.
-/

abbrev GoStr := List Char

deriving instance DecidableEq for Except

def gs (s : String) : GoStr := s.data

def onionSuffix : GoStr := gs ".onion"

def onionMxSuffix : GoStr := gs ".onion."

def yamnPre : GoStr := gs "Yamn-"

/-- Tor section of the configuration (may be absent: `cfg.Tor` is a pointer). -/
structure TorConfig where
  enabled : Bool
  required : Bool
  socksProxy : GoStr
  timeout : Nat
  circuitReset : Int
deriving DecidableEq

/-- Mail section of the configuration. -/
structure MailConfig where
  onionRelay : Bool
  forceTorSMTP : Bool
  useTLS : Bool
  disableTLSOnion : Bool
  mxRelay : Bool
  smtpRelay : GoStr
  smtpPort : Nat
  username : GoStr
  password : GoStr
  sender : GoStr
  outboundName : GoStr
  outboundAddy : GoStr
  customFrom : Bool
  outfile : Bool
  pipe : GoStr
  sendmail : Bool
deriving DecidableEq

/-- Pool section of the configuration. -/
structure PoolConfig where
  maxAge : Int
deriving DecidableEq

/-- Remailer section of the configuration. -/
structure RemailerConfig where
  address : GoStr
deriving DecidableEq

/-- The process-wide configuration `cfg` (read-only after load). -/
structure Config where
  tor : Option TorConfig
  mail : MailConfig
  pool : PoolConfig
  remailer : RemailerConfig
deriving DecidableEq

/-- Go's `strings.Split(s, sep)` for a single-character separator. -/
def splitOnChar (c : Char) : GoStr → List GoStr
  | [] => [[]]
  | x :: xs =>
    match splitOnChar c xs with
    | [] => [[]]
    | y :: ys => if x = c then [] :: y :: ys else (x :: y) :: ys

inductive MailErr where
  | noAtSign
  | malformed
deriving DecidableEq

structure emailAddress where
  name : GoStr
  domain : GoStr
deriving DecidableEq

/-- `splitEmailAddress` (src/mail.go:55-68): split an address at its `@`. -/
def splitEmailAddress (addy : GoStr) : Except MailErr emailAddress :=
  if '@' ∉ addy then .error .noAtSign
  else
    match splitOnChar '@' addy with
    | [n, d] => .ok ⟨n, d⟩
    | _ => .error .malformed

/-- `shouldUseTor` (src/mail.go:250-266): transport-policy decision. -/
def shouldUseTor (cfg : Config) (address : GoStr) : Bool :=
  match cfg.tor with
  | none => false
  | some tor =>
    if ¬ tor.enabled then false
    else if onionSuffix <:+: address then true
    else if cfg.mail.forceTorSMTP then true
    else false

/-- A DNS MX record (Go `net.MX`). -/
structure MXRecord where
  host : GoStr
  pref : Nat
deriving DecidableEq

/-- Result of `mxLookup`: the chosen relay, the returned error, and whether a
DNS query was issued (`net.LookupMX` reached). -/
structure MxResult where
  relay : GoStr
  err : Option MailErr
  queried : Bool
deriving DecidableEq

/-- The skip condition of the `mxLookup` record loop (src/mail.go:93-97):
a `.onion.` MX host is skipped when `OnionRelay` is disabled. -/
def mxSkipped (onionRelay : Bool) (r : MXRecord) : Prop :=
  ¬ onionRelay ∧ onionMxSuffix <:+ r.host

instance (b : Bool) (r : MXRecord) : Decidable (mxSkipped b r) := by
  unfold mxSkipped; infer_instance

/-- The record-selection loop of `mxLookup` (src/mail.go:92-101): take the
first record, skipping `.onion.` hosts when `OnionRelay` is disabled;
`[]` when the loop falls through with `relay` unassigned. -/
def pickMX (onionRelay : Bool) : List MXRecord → GoStr
  | [] => []
  | mx :: rest =>
    if mxSkipped onionRelay mx then pickMX onionRelay rest
    else mx.host

/-- `mxLookup` (src/mail.go:71-110). `dns` is the `net.LookupMX` oracle
(`none` = lookup error). -/
def mxLookup (cfg : Config) (dns : GoStr → Option (List MXRecord))
    (email : GoStr) : MxResult :=
  match splitEmailAddress email with
  | .error e => ⟨[], some e, false⟩
  | .ok parts =>
    if onionSuffix <:+ parts.domain then ⟨parts.domain, none, false⟩
    else
      match dns parts.domain with
      | none => ⟨parts.domain, none, true⟩
      | some records =>
        let relay := pickMX cfg.mail.onionRelay records
        if relay = [] then ⟨parts.domain, none, true⟩
        else ⟨relay, none, true⟩

/-- A parsed message header (Go `mail.Header`, `map[string][]string`); modelled
as an association list with (by construction of the Go map) distinct keys. -/
abbrev Header := List (GoStr × List GoStr)

/-- A parsed message (Go `mail.Message`): header plus raw body bytes. -/
structure Message where
  header : Header
  body : GoStr
deriving DecidableEq

/-- Association-list lookup (the Go map access `h[key]`). -/
def hdrFind : Header → GoStr → Option (List GoStr)
  | [], _ => none
  | (k, v) :: rest, key => if k = key then some v else hdrFind rest key

/-- Go `mail.Header.Get`: first value of the entry at the key, `""` if the
key is absent or its value list is empty. -/
def headerGet (h : Header) (key : GoStr) : GoStr :=
  match hdrFind h key with
  | some (v :: _) => v
  | _ => []

/-- Go map assignment `h[key] = vs`: replace the entry in place, or add it. -/
def hdrSet : Header → GoStr → List GoStr → Header
  | [], key, vs => [(key, vs)]
  | (k, v) :: rest, key, vs =>
    if k = key then (key, vs) :: rest else (k, v) :: hdrSet rest key vs

/-- Go `delete(h, key)`. -/
def hdrDelete (h : Header) (key : GoStr) : Header :=
  h.filter (fun kv => ! decide (kv.1 = key))

def dateKey : GoStr := gs "Date"

def msgIdKey : GoStr := gs "Message-Id"

def fromKey : GoStr := gs "From"

def toKey : GoStr := gs "To"

def ccKey : GoStr := gs "Cc"

def pooledDateKey : GoStr := gs "Yamn-Pooled-Date"

/-- `assemble` (src/mail.go:19-31): write every header as a `Name: value`
line — skipping `Yamn-` bookkeeping headers, whose values `Header.Get`
would return — then a blank line, then the body. -/
def assemble (m : Message) : GoStr :=
  ((m.header.filter (fun kv => ! decide (yamnPre <+: kv.1))).map
      (fun kv => kv.1 ++ ':' :: ' ' :: (headerGet m.header kv.1 ++ ['\n']))).flatten
  ++ '\n' :: m.body

/-- Go `mail.Header.AddressList(key)` with `parseAL` standing for the stdlib
`mail.ParseAddressList` (a list of display-name/address pairs, `none` on a
parse error): error out when `Get` yields the empty string. -/
def addressList (parseAL : GoStr → Option (List (GoStr × GoStr)))
    (h : Header) (key : GoStr) : Option (List (GoStr × GoStr)) :=
  let v := headerGet h key
  if v = [] then none else parseAL v

/-- `headToAddy` (src/mail.go:34-47): addresses named by one header. -/
def headToAddy (parseAL : GoStr → Option (List (GoStr × GoStr)))
    (h : Header) (key : GoStr) : List GoStr :=
  match hdrFind h key with
  | none => []
  | some _ => ((addressList parseAL h key).getD []).map (fun a => a.2)

/-- Go `fmt.Sprintf("%s <%s>", n, a)`. -/
def fmtAddr (n a : GoStr) : GoStr := n ++ ' ' :: '<' :: (a ++ ['>'])

/-- `parseFrom` (src/mail.go:113-128): rewrite the From header per the
outbound-identity policy. -/
def parseFrom (cfg : Config) (parseAL : GoStr → Option (List (GoStr × GoStr)))
    (h : Header) : List GoStr :=
  match addressList parseAL h fromKey with
  | none => [fmtAddr cfg.mail.outboundName cfg.mail.outboundAddy]
  | some [] => [fmtAddr cfg.mail.outboundName cfg.mail.outboundAddy]
  | some (a :: _) =>
    if cfg.mail.customFrom then [fmtAddr a.1 a.2]
    else if a.1 = [] then [fmtAddr cfg.mail.outboundName cfg.mail.outboundAddy]
    else [fmtAddr a.1 cfg.mail.outboundAddy]

/-- Modelled from the spec: the `daysAgo` helper is not under src/ (it lives
in the surrounding yamn code); §4.6 reads "the elapsed time since pooling
exceeds the configured maximum age in days", so it is the number of whole
days elapsed between the pooled date and now, both given as day counts. -/
def daysAgo (now pooled : Int) : Int := now - pooled

inductive PoolErr where
  | openFail
  | parseFail
  | dateParseFail
  | noRecipients
  | sendFail
deriving DecidableEq

/-- What reading one spooled file can yield: an `os.Open` error, a
`mail.ReadMessage` error, or a parsed message. -/
inductive PoolFileInput where
  | openError
  | unparsable
  | message (m : Message)
deriving DecidableEq

/-- Result of `mailPoolFile`: the delete flag, the returned error, and the
payload/recipients handed to the delivery sink (`none` = never handed over). -/
structure PoolResult where
  delFlag : Bool
  err : Option PoolErr
  sent : Option (GoStr × List GoStr)
deriving DecidableEq

/-- The header stamping done by `mailPoolFile` (src/mail.go:171-174): set
Date, Message-Id, and the policy-rewritten From. -/
def stampedHeader (cfg : Config) (parseAL : GoStr → Option (List (GoStr × GoStr)))
    (dateNow msgID : GoStr) (h : Header) : Header :=
  let h1 := hdrSet h dateKey [dateNow]
  let h2 := hdrSet h1 msgIdKey [msgID]
  hdrSet h2 fromKey (parseFrom cfg parseAL h2)

/-- Recipients collected by `mailPoolFile` (src/mail.go:175-176): the To
addresses then the Cc addresses. -/
def recipientsOf (parseAL : GoStr → Option (List (GoStr × GoStr)))
    (h : Header) : List GoStr :=
  headToAddy parseAL h toKey ++ headToAddy parseAL h ccKey

/-- The delivery tail of `mailPoolFile` (src/mail.go:171-184): stamp Date,
Message-Id and From, collect recipients from To and Cc, and hand the
assembled payload to the delivery sink (`sink` stands for `mailBytes`;
its Bool is delivery success). -/
def poolDeliver (cfg : Config) (parseAL : GoStr → Option (List (GoStr × GoStr)))
    (dateNow msgID : GoStr) (sink : GoStr → List GoStr → Bool)
    (m : Message) : PoolResult :=
  let h3 := stampedHeader cfg parseAL dateNow msgID m.header
  let sendTo := recipientsOf parseAL h3
  if sendTo = [] then ⟨true, some .noRecipients, none⟩
  else
    let payload := assemble ⟨h3, m.body⟩
    ⟨false, if sink payload sendTo then none else some .sendFail, some (payload, sendTo)⟩

/-- `mailPoolFile` (src/mail.go:131-185). `now` is today's day count,
`parseDate` is `time.Parse(shortdate, ·)` as a day count, `dateNow` and
`msgID` are the stamped `time.Now()` date and `messageID()`. -/
def mailPoolFile (cfg : Config) (now : Int) (parseDate : GoStr → Option Int)
    (parseAL : GoStr → Option (List (GoStr × GoStr)))
    (dateNow msgID : GoStr) (sink : GoStr → List GoStr → Bool)
    (file : PoolFileInput) : PoolResult :=
  match file with
  | .openError => ⟨false, some .openFail, none⟩
  | .unparsable => ⟨true, some .parseFail, none⟩
  | .message m =>
    let pooledHeader := headerGet m.header pooledDateKey
    if pooledHeader = [] then
      poolDeliver cfg parseAL dateNow msgID sink m
    else
      match parseDate pooledHeader with
      | none => ⟨false, some .dateParseFail, none⟩
      | some d =>
        let age := daysAgo now d
        if age > cfg.pool.maxAge then ⟨true, none, none⟩
        else poolDeliver cfg parseAL dateNow msgID sink
          ⟨hdrDelete m.header pooledDateKey, m.body⟩

/-- Observable actions of one `smtpRelay` session, in order. -/
inductive SmtpEvent where
  | dialDirect (addr : GoStr)
  | dialTor (addr : GoStr)
  | startTLS
  | auth
  | mailFrom (sender : GoStr)
  | rcpt (a : GoStr)
  | dataWrite (payload : GoStr)
deriving DecidableEq

/-- How one `smtpRelay` call ends. `panicNilTor` is the run-time nil-pointer
dereference of `cfg.Tor.Timeout` (src/mail.go:297) when `cfg.Tor` is nil. -/
inductive SmtpOutcome where
  | panicNilTor
  | dialError
  | clientError
  | tlsError
  | authError
  | mailError
  | rcptError
  | dataError
  | writeError
  | closeError
  | ok
deriving DecidableEq

/-- The network environment one `smtpRelay` call runs against: the DNS
oracle and the success/failure of each SMTP step, plus which extensions
the server advertises. -/
structure SmtpWorld where
  dns : GoStr → Option (List MXRecord)
  dialDirectOk : Bool
  dialTorOk : Bool
  clientOk : Bool
  extStartTLS : Bool
  startTLSOk : Bool
  extAuth : Bool
  authOk : Bool
  rcptOk : GoStr → Bool
  mailOk : Bool
  dataOk : Bool
  writeOk : Bool
  closeOk : Bool

/-- The relay/port chosen by `smtpRelay` (src/mail.go:280-292): the
configured relay, unless the single-recipient MX-relay path applies. -/
def chooseRelay (cfg : Config) (dns : GoStr → Option (List MXRecord))
    (sendTo : List GoStr) (useTor : Bool) : GoStr × Nat :=
  if cfg.mail.mxRelay ∧ sendTo.length = 1 ∧
      ¬ (onionSuffix <:+: sendTo.headD []) ∧ useTor = false then
    let r := mxLookup cfg dns (sendTo.headD [])
    if r.err = none then (r.relay, 25) else (cfg.mail.smtpRelay, cfg.mail.smtpPort)
  else (cfg.mail.smtpRelay, cfg.mail.smtpPort)

/-- The RCPT TO loop of `smtpRelay` (src/mail.go:360-365): issue every
recipient in order, stopping at the first rejection. -/
def rcptAll (w : SmtpWorld) : List GoStr → List SmtpEvent × Bool
  | [] => ([], true)
  | a :: rest =>
    if w.rcptOk a then
      let r := rcptAll w rest
      (.rcpt a :: r.1, r.2)
    else ([.rcpt a], false)

/-- The TLS-policy value computed at src/mail.go:326-329: the global
`UseTLS` flag, forced off when the relay contains `.onion` and
`DisableTLSOnion` is set. -/
def relayTLSPolicy (cfg : Config) (relay : GoStr) : Bool :=
  if onionSuffix <:+: relay ∧ cfg.mail.disableTLSOnion then false
  else cfg.mail.useTLS

/-- The SMTP session from the STARTTLS decision on (src/mail.go:324-392),
given the events `pre` already emitted (the dial). -/
def smtpSession (cfg : Config) (w : SmtpWorld) (payload : GoStr)
    (sendTo : List GoStr) (relay : GoStr) (pre : List SmtpEvent) :
    List SmtpEvent × SmtpOutcome :=
  let shouldUseTLS := relayTLSPolicy cfg relay
  let tlsEvs := if w.extStartTLS ∧ shouldUseTLS = true
                then [SmtpEvent.startTLS] else []
  if w.extStartTLS ∧ shouldUseTLS = true ∧ ¬ w.startTLSOk then
    (pre ++ tlsEvs, .tlsError)
  else
    let doAuth := w.extAuth ∧ cfg.mail.username ≠ [] ∧ cfg.mail.password ≠ []
    let authEvs := if doAuth then [SmtpEvent.auth] else []
    if doAuth ∧ ¬ w.authOk then (pre ++ tlsEvs ++ authEvs, .authError)
    else
      let sender := if cfg.mail.sender = [] then cfg.remailer.address
                    else cfg.mail.sender
      if ¬ w.mailOk then
        (pre ++ tlsEvs ++ authEvs ++ [SmtpEvent.mailFrom sender], .mailError)
      else
        let pre2 := pre ++ tlsEvs ++ authEvs ++ [SmtpEvent.mailFrom sender]
        let rc := rcptAll w sendTo
        if ¬ rc.2 then (pre2 ++ rc.1, .rcptError)
        else if ¬ w.dataOk then
          (pre2 ++ rc.1 ++ [SmtpEvent.dataWrite payload], .dataError)
        else if ¬ w.writeOk then
          (pre2 ++ rc.1 ++ [SmtpEvent.dataWrite payload], .writeError)
        else if ¬ w.closeOk then
          (pre2 ++ rc.1 ++ [SmtpEvent.dataWrite payload], .closeError)
        else (pre2 ++ rc.1 ++ [SmtpEvent.dataWrite payload], .ok)

/-- `smtpRelay` (src/mail.go:269-392): transport decision, relay choice,
dial (direct or through Tor), then the SMTP session. Returns the event
trace and the outcome. `cfg.Tor.Timeout` is read before dialing
(src/mail.go:297), so a nil Tor section panics before any connection is
made. -/
def smtpRelay (cfg : Config) (w : SmtpWorld) (payload : GoStr)
    (sendTo : List GoStr) : List SmtpEvent × SmtpOutcome :=
  let useTor := sendTo.any (shouldUseTor cfg)
  let rp := chooseRelay cfg w.dns sendTo useTor
  match cfg.tor with
  | none => ([], .panicNilTor)
  | some tor =>
    let _timeout := if tor.timeout = 0 then 30 else tor.timeout
    let serverAddr := rp.1 ++ ':' :: Nat.toDigits 10 rp.2
    let dialEv := if useTor then SmtpEvent.dialTor serverAddr
                  else SmtpEvent.dialDirect serverAddr
    let dialOk := if useTor then w.dialTorOk else w.dialDirectOk
    if ¬ dialOk then ([dialEv], .dialError)
    else if ¬ w.clientOk then ([dialEv], .clientError)
    else smtpSession cfg w payload sendTo rp.1 [dialEv]

/-- Leading whitespace trimming done by Go's textproto header reader on a
header value. -/
def dropLS : GoStr → GoStr
  | ' ' :: rest => dropLS rest
  | '\t' :: rest => dropLS rest
  | s => s

/-- Split one header line at its first colon (Go textproto semantics),
trimming the value's leading whitespace. -/
def breakAtColon : GoStr → GoStr × GoStr
  | [] => ([], [])
  | c :: rest =>
    if c = ':' then ([], rest)
    else
      let r := breakAtColon rest
      (c :: r.1, r.2)

def parseHeaderLine (l : GoStr) : GoStr × GoStr :=
  let r := breakAtColon l
  (r.1, dropLS r.2)

/-- Re-parse the header block of an assembled payload the way
`mail.ReadMessage` reads it: the lines before the first blank line, each
split at its first colon. -/
def parseHeaderBlock (payload : GoStr) : List (GoStr × GoStr) :=
  ((splitOnChar '\n' payload).takeWhile (fun l => ! decide (l = []))).map
    parseHeaderLine

/-- Concrete mail configuration used for evaluating the development on
closed inputs. -/
def mailBase : MailConfig :=
  { onionRelay := false, forceTorSMTP := false, useTLS := true,
    disableTLSOnion := true, mxRelay := false,
    smtpRelay := gs "relay.example.com", smtpPort := 587,
    username := [], password := [], sender := [],
    outboundName := gs "Anonymous", outboundAddy := gs "anon@example.com",
    customFrom := false, outfile := false, pipe := [], sendmail := false }

/-- Concrete Tor section: enabled, optional, default proxy. -/
def torOn : TorConfig :=
  { enabled := true, required := false, socksProxy := gs "127.0.0.1:9050",
    timeout := 0, circuitReset := 60 }

/-- Concrete configuration with Tor enabled. -/
def cfgTorOn : Config :=
  { tor := some torOn, mail := mailBase, pool := { maxAge := 28 },
    remailer := { address := gs "remailer@example.com" } }

/-- Concrete configuration whose Tor section is absent (`cfg.Tor == nil`). -/
def cfgTorNil : Config := { cfgTorOn with tor := none }

/-- DNS oracle with no MX data at all. -/
def dnsEmpty : GoStr → Option (List MXRecord) := fun _ => none

/-- A `.onion.` MX record (as `net.LookupMX` would return it, fully
qualified). -/
def mxOnion : MXRecord := ⟨gs "relay.mail.onion.", 10⟩

/-- An ordinary MX record. -/
def mxClear : MXRecord := ⟨gs "mx1.example.com.", 20⟩

/-- DNS oracle knowing MX records for `example.com` only, the `.onion.`
one first. -/
def dnsC4 : GoStr → Option (List MXRecord) := fun d =>
  if d = gs "example.com" then some [mxOnion, mxClear] else none

/-- The transport-policy rule exactly as the specification words it
(§4.3): the decision keys on the address's DOMAIN being or containing the
hidden-service suffix. Stated from the spec only, to be compared with the
code's `shouldUseTor`. -/
def claimShouldUseTor (cfg : Config) (address : GoStr) : Bool :=
  match cfg.tor with
  | none => false
  | some tor =>
    if ¬ tor.enabled then false
    else if (match splitEmailAddress address with
             | .ok e => decide (onionSuffix <:+: e.domain)
             | .error _ => false) then true
    else if cfg.mail.forceTorSMTP then true
    else false

/-- Network environment where every SMTP step succeeds and STARTTLS is
advertised (AUTH is not). -/
def wAll : SmtpWorld :=
  { dns := dnsEmpty, dialDirectOk := true, dialTorOk := true,
    clientOk := true, extStartTLS := true, startTLSOk := true,
    extAuth := false, authOk := true, rcptOk := fun _ => true,
    mailOk := true, dataOk := true, writeOk := true, closeOk := true }

/-- Configuration whose fixed SMTP relay is a hidden service. -/
def cfgOnionRelay : Config :=
  { cfgTorOn with mail := { mailBase with smtpRelay := gs "mail.xyz.onion" } }

/-- Short-date oracle: knows the one date used by the fixtures, as day
count 0. -/
def parseDateFix : GoStr → Option Int := fun v =>
  if v = gs "1 Jan 2020" then some 0 else none

/-- Address-list oracle: one address per header value, the raw value with
no display name. -/
def parseALFix : GoStr → Option (List (GoStr × GoStr)) := fun v =>
  some [([], v)]

/-- Delivery sink that always succeeds. -/
def sinkTrue : GoStr → List GoStr → Bool := fun _ _ => true

/-- Pool message pooled at day 0 (expired when `now` is large). -/
def mExpired : Message :=
  ⟨[(pooledDateKey, [gs "1 Jan 2020"]), (toKey, [gs "user@example.com"])],
   gs "hello"⟩

/-- Pool message whose pooled-date value does not parse. -/
def mBadDate : Message :=
  ⟨[(pooledDateKey, [gs "not a date"]), (toKey, [gs "user@example.com"])],
   gs "hello"⟩

/-- Pool message with no pooled-date marker at all. -/
def mNoDate : Message :=
  ⟨[(toKey, [gs "user@example.com"])], gs "hello"⟩

/-- The header line `assemble` writes for one entry, without its trailing
newline: the key, a colon and space, then the first value. -/
def rawLine (kv : GoStr × List GoStr) : GoStr :=
  kv.1 ++ ':' :: ' ' :: kv.2.headD []

/-- Wire-compatible header entry: nonempty key without colon or newline,
at least one value, and a first value with no newline and no leading
whitespace (anything else could not come out of `mail.ReadMessage` or
would be mangled by the Go textproto writer/reader pair). -/
def wfEntry (kv : GoStr × List GoStr) : Prop :=
  kv.1 ≠ [] ∧ ':' ∉ kv.1 ∧ '\n' ∉ kv.1 ∧
  kv.2 ≠ [] ∧ '\n' ∉ kv.2.headD [] ∧ dropLS (kv.2.headD []) = kv.2.headD []

instance (kv : GoStr × List GoStr) : Decidable (wfEntry kv) := by
  unfold wfEntry; infer_instance

/-- Message with a multi-valued header (Go `mail.ReadMessage` produces one
for a repeated header line). -/
def mC7 : Message := ⟨[(gs "X-A", [gs "a", gs "b"])], gs "body"⟩

/-- Message mixing ordinary headers with a `Yamn-` bookkeeping header. -/
def mC7w : Message :=
  ⟨[(gs "Subject", [gs "hello"]), (pooledDateKey, [gs "1 Jan 2020"]),
    (fromKey, [gs "a@b.c"])], gs "body text"⟩

theorem splitOnChar_ne_nil (c : Char) (s : GoStr) : splitOnChar c s ≠ [] := by
  induction s with
  | nil => simp [splitOnChar]
  | cons x xs ih =>
    obtain ⟨y, ys, h⟩ : ∃ y ys, splitOnChar c xs = y :: ys := by
      cases hh : splitOnChar c xs with
      | nil => exact absurd hh ih
      | cons a b => exact ⟨a, b, rfl⟩
    simp only [splitOnChar, h]
    split <;> simp

theorem splitOnChar_length (c : Char) (s : GoStr) :
    (splitOnChar c s).length = s.count c + 1 := by
  induction s with
  | nil => simp [splitOnChar]
  | cons x xs ih =>
    obtain ⟨y, ys, h⟩ : ∃ y ys, splitOnChar c xs = y :: ys := by
      cases hh : splitOnChar c xs with
      | nil => exact absurd hh (splitOnChar_ne_nil c xs)
      | cons a b => exact ⟨a, b, rfl⟩
    rw [h] at ih
    simp only [splitOnChar, h]
    by_cases hx : x = c
    · subst hx
      simp [List.count_cons] at *
      omega
    · rw [if_neg hx]
      simp [List.count_cons, hx] at *
      omega

theorem splitOnChar_not_mem (c : Char) (s : GoStr) (h : c ∉ s) :
    splitOnChar c s = [s] := by
  induction s with
  | nil => rfl
  | cons x xs ih =>
    rw [List.mem_cons, not_or] at h
    obtain ⟨h1, h2⟩ := h
    simp only [splitOnChar, ih h2]
    rw [if_neg (fun he => h1 he.symm)]

theorem splitOnChar_append (c : Char) (l s : GoStr) (h : c ∉ l) :
    splitOnChar c (l ++ c :: s) = l :: splitOnChar c s := by
  induction l with
  | nil =>
    obtain ⟨y, ys, hs⟩ : ∃ y ys, splitOnChar c s = y :: ys := by
      cases hh : splitOnChar c s with
      | nil => exact absurd hh (splitOnChar_ne_nil c s)
      | cons a b => exact ⟨a, b, rfl⟩
    simp [splitOnChar, hs]
  | cons x xs ih =>
    rw [List.mem_cons, not_or] at h
    obtain ⟨h1, h2⟩ := h
    rw [List.cons_append]
    simp only [splitOnChar, ih h2]
    rw [if_neg (fun he => h1 he.symm)]

/-- C8: for every raw address string, `splitEmailAddress` fails with a
malformed-address error exactly when the string contains zero or more than
one `@` separator; with exactly one `@` present it returns the local part
and the domain split at that separator. -/
theorem C8_split_email_address :
    (∀ s : GoStr, (∃ e, splitEmailAddress s = .ok e) ↔ s.count '@' = 1) ∧
    (∀ n d : GoStr, '@' ∉ n → '@' ∉ d →
      splitEmailAddress (n ++ '@' :: d) = .ok ⟨n, d⟩) := by
  constructor
  · intro s
    constructor
    · rintro ⟨e, he⟩
      unfold splitEmailAddress at he
      by_cases hm : '@' ∈ s
      · rw [if_neg (not_not_intro hm)] at he
        have hlen := splitOnChar_length '@' s
        cases hsp : splitOnChar '@' s with
        | nil => exact absurd hsp (splitOnChar_ne_nil '@' s)
        | cons a t =>
          rw [hsp] at he hlen
          cases t with
          | nil => simp at he
          | cons b t2 =>
            cases t2 with
            | nil => simp at hlen; omega
            | cons u t3 => simp at he
      · rw [if_pos hm] at he
        simp at he
    · intro hc
      have hm : '@' ∈ s := by
        by_contra hnm
        have h0 : s.count '@' = 0 := List.count_eq_zero.mpr hnm
        omega
      have hlen : (splitOnChar '@' s).length = 2 := by
        rw [splitOnChar_length, hc]
      cases hsp : splitOnChar '@' s with
      | nil => exact absurd hsp (splitOnChar_ne_nil '@' s)
      | cons a t =>
        rw [hsp] at hlen
        cases t with
        | nil => simp at hlen
        | cons b t2 =>
          cases t2 with
          | nil =>
            refine ⟨⟨a, b⟩, ?_⟩
            unfold splitEmailAddress
            rw [if_neg (not_not_intro hm), hsp]
          | cons u t3 => simp at hlen
  · intro n d hn hd
    unfold splitEmailAddress
    have hm : '@' ∈ n ++ '@' :: d :=
      List.mem_append_right n (List.mem_cons_self _ _)
    rw [if_neg (not_not_intro hm), splitOnChar_append '@' n d hn,
      splitOnChar_not_mem '@' d hd]

theorem C8_split_email_address_witness :
    splitEmailAddress (gs "user" ++ '@' :: gs "example.com") =
      .ok ⟨gs "user", gs "example.com"⟩ ∧
    ∃ e, splitEmailAddress (gs "user@example.com") = .ok e :=
  ⟨C8_split_email_address.2 (gs "user") (gs "example.com") (by decide) (by decide),
   (C8_split_email_address.1 (gs "user@example.com")).mpr (by decide)⟩

theorem pickMX_eq_filter (b : Bool) (records : List MXRecord) :
    pickMX b records =
      match (records.filter (fun r => ! decide (mxSkipped b r))).head? with
      | none => []
      | some r => r.host := by
  induction records with
  | nil => rfl
  | cons r rest ih =>
    by_cases hs : mxSkipped b r
    · simp [pickMX, List.filter_cons, hs, ih]
    · simp [pickMX, List.filter_cons, hs]

/-- C3: for every well-formed address whose domain ends in `.onion`,
`mxLookup` returns the domain itself with no error and never issues a DNS
query (the result holds for every DNS oracle and the queried flag is
false). -/
theorem C3_mxLookup_onion (cfg : Config) (dns : GoStr → Option (List MXRecord))
    (email : GoStr) (e : emailAddress)
    (hok : splitEmailAddress email = .ok e)
    (hon : onionSuffix <:+ e.domain) :
    mxLookup cfg dns email = ⟨e.domain, none, false⟩ := by
  simp [mxLookup, hok, hon]

theorem C3_mxLookup_onion_witness :
    mxLookup cfgTorOn dnsEmpty (gs "user@foo.onion") =
      ⟨gs "foo.onion", none, false⟩ :=
  C3_mxLookup_onion cfgTorOn dnsEmpty (gs "user@foo.onion")
    ⟨gs "user", gs "foo.onion"⟩ (by decide) (by decide)

/-- C4: for every well-formed non-`.onion` address, `mxLookup` never
returns a hard error: a failed MX lookup falls back to the domain with nil
error; a successful lookup selects the first record that is not skipped
(`.onion.` hosts are skipped when `OnionRelay` is off), falling back to
the domain when every record is skipped. -/
theorem C4_mxLookup_fallbacks (cfg : Config)
    (dns : GoStr → Option (List MXRecord)) (email : GoStr) (e : emailAddress)
    (hok : splitEmailAddress email = .ok e)
    (hnon : ¬ onionSuffix <:+ e.domain) :
    (dns e.domain = none → mxLookup cfg dns email = ⟨e.domain, none, true⟩) ∧
    (∀ records, dns e.domain = some records →
      (∀ r ∈ records, r.host ≠ []) →
      mxLookup cfg dns email =
        ⟨(match (records.filter
              (fun r => ! decide (mxSkipped cfg.mail.onionRelay r))).head? with
          | none => e.domain
          | some r => r.host), none, true⟩) := by
  constructor
  · intro hdns
    simp [mxLookup, hok, hnon, hdns]
  · intro records hdns hhosts
    cases hh : (records.filter
        (fun r => ! decide (mxSkipped cfg.mail.onionRelay r))).head? with
    | none =>
      have hp : pickMX cfg.mail.onionRelay records = [] := by
        rw [pickMX_eq_filter, hh]
      simp [mxLookup, hok, hnon, hdns, hp]
    | some r =>
      have hp : pickMX cfg.mail.onionRelay records = r.host := by
        rw [pickMX_eq_filter, hh]
      have hrmem : r ∈ records :=
        List.mem_of_mem_filter (List.mem_of_mem_head? (by rw [hh]; rfl))
      have hne : r.host ≠ [] := hhosts r hrmem
      simp [mxLookup, hok, hnon, hdns, hp, hne]

theorem C4_mxLookup_fallbacks_witness :
    mxLookup cfgTorOn dnsC4 (gs "user@nomx.example") =
      ⟨gs "nomx.example", none, true⟩ ∧
    mxLookup cfgTorOn dnsC4 (gs "user@example.com") =
      ⟨gs "mx1.example.com.", none, true⟩ := by
  constructor
  · exact (C4_mxLookup_fallbacks cfgTorOn dnsC4 (gs "user@nomx.example")
      ⟨gs "user", gs "nomx.example"⟩ (by decide) (by decide)).1 (by decide)
  · have h := (C4_mxLookup_fallbacks cfgTorOn dnsC4 (gs "user@example.com")
      ⟨gs "user", gs "example.com"⟩ (by decide) (by decide)).2
      [mxOnion, mxClear] (by decide) (by decide)
    simpa using h

/-- C2 counterexample: `shouldUseTor` tests the WHOLE address string for
`.onion`, so an address whose local part contains `.onion` while its
domain does not still answers true; the claim's domain-based rule (with
Tor enabled and `ForceTorSMTP` off) answers false. -/
theorem C2_counterexample :
    shouldUseTor cfgTorOn (gs "x.onion@example.com") = true ∧
    claimShouldUseTor cfgTorOn (gs "x.onion@example.com") = false ∧
    cfgTorOn.mail.forceTorSMTP = false ∧
    (∃ tor, cfgTorOn.tor = some tor ∧ tor.enabled = true) := by
  refine ⟨by decide, by decide, by decide, torOn, rfl, by decide⟩

/-- C2 (amended): the transport-policy decision returns true exactly when
the Tor feature is present and enabled and either the ADDRESS STRING
(local part included, not only the domain) contains `.onion`, or
configuration forces all SMTP traffic through Tor; in particular it is
false whenever Tor is absent or disabled. -/
theorem C2_shouldUseTor_amended (cfg : Config) (address : GoStr) :
    shouldUseTor cfg address = true ↔
      ∃ tor, cfg.tor = some tor ∧ tor.enabled = true ∧
        (onionSuffix <:+: address ∨ cfg.mail.forceTorSMTP = true) := by
  unfold shouldUseTor
  cases cfg.tor with
  | none => simp
  | some tor =>
    by_cases he : tor.enabled = true
    · by_cases hi : onionSuffix <:+: address
      · simp [he, hi]
      · by_cases hf : cfg.mail.forceTorSMTP = true <;> simp [he, hi, hf]
    · simp [he]

/-- C9: every `smtpRelay` call dereferences the Tor configuration (to
compute the dial timeout, src/mail.go:297) before any connection is made,
so an absent Tor section means a nil-pointer panic with an empty event
trace — even for purely direct deliveries. -/
theorem C9_smtpRelay_nil_tor (cfg : Config) (w : SmtpWorld) (payload : GoStr)
    (sendTo : List GoStr) (h : cfg.tor = none) :
    smtpRelay cfg w payload sendTo = ([], .panicNilTor) := by
  simp [smtpRelay, h]

theorem C9_smtpRelay_nil_tor_witness :
    smtpRelay cfgTorNil wAll (gs "payload") [gs "user@example.com"] =
      ([], .panicNilTor) :=
  C9_smtpRelay_nil_tor cfgTorNil wAll (gs "payload")
    [gs "user@example.com"] rfl

/-- C1: a pool entry whose pooled-date header is present, parses, and lies
more than `maxPoolAge` days in the past yields delete=true with nothing
ever handed to the delivery sink, whatever the sink would have answered. -/
theorem C1_pool_expired (cfg : Config) (now : Int)
    (parseDate : GoStr → Option Int)
    (parseAL : GoStr → Option (List (GoStr × GoStr)))
    (dateNow msgID : GoStr) (sink : GoStr → List GoStr → Bool)
    (m : Message) (d : Int)
    (hne : headerGet m.header pooledDateKey ≠ [])
    (hp : parseDate (headerGet m.header pooledDateKey) = some d)
    (hage : daysAgo now d > cfg.pool.maxAge) :
    mailPoolFile cfg now parseDate parseAL dateNow msgID sink (.message m) =
      ⟨true, none, none⟩ := by
  simp [mailPoolFile, hne, hp, hage]

theorem C1_pool_expired_witness :
    mailPoolFile cfgTorOn 40 parseDateFix parseALFix (gs "D") (gs "M")
      sinkTrue (.message mExpired) = ⟨true, none, none⟩ :=
  C1_pool_expired cfgTorOn 40 parseDateFix parseALFix (gs "D") (gs "M")
    sinkTrue mExpired 0 (by decide) (by decide) (by decide)

/-- C6: a pool entry whose pooled-date header is present but does not
parse makes `mailPoolFile` abort with a non-nil error, delete=false, and
no delivery attempt. -/
theorem C6_pool_bad_date (cfg : Config) (now : Int)
    (parseDate : GoStr → Option Int)
    (parseAL : GoStr → Option (List (GoStr × GoStr)))
    (dateNow msgID : GoStr) (sink : GoStr → List GoStr → Bool)
    (m : Message)
    (hne : headerGet m.header pooledDateKey ≠ [])
    (hp : parseDate (headerGet m.header pooledDateKey) = none) :
    mailPoolFile cfg now parseDate parseAL dateNow msgID sink (.message m) =
      ⟨false, some .dateParseFail, none⟩ := by
  simp [mailPoolFile, hne, hp]

theorem C6_pool_bad_date_witness :
    mailPoolFile cfgTorOn 40 parseDateFix parseALFix (gs "D") (gs "M")
      sinkTrue (.message mBadDate) = ⟨false, some .dateParseFail, none⟩ :=
  C6_pool_bad_date cfgTorOn 40 parseDateFix parseALFix (gs "D") (gs "M")
    sinkTrue mBadDate (by decide) (by decide)

/-- C10: a pool entry with no pooled-date marker skips the age check
entirely: whatever `now` is, the headers are stamped and the assembled
payload is handed to the delivery sink (provided recipients exist). -/
theorem C10_no_pooled_date (cfg : Config) (now : Int)
    (parseDate : GoStr → Option Int)
    (parseAL : GoStr → Option (List (GoStr × GoStr)))
    (dateNow msgID : GoStr) (sink : GoStr → List GoStr → Bool)
    (m : Message)
    (habs : headerGet m.header pooledDateKey = [])
    (hrcpt : recipientsOf parseAL
      (stampedHeader cfg parseAL dateNow msgID m.header) ≠ []) :
    mailPoolFile cfg now parseDate parseAL dateNow msgID sink (.message m) =
      ⟨false,
       (if sink (assemble ⟨stampedHeader cfg parseAL dateNow msgID m.header,
            m.body⟩) (recipientsOf parseAL
            (stampedHeader cfg parseAL dateNow msgID m.header))
        then none else some .sendFail),
       some (assemble ⟨stampedHeader cfg parseAL dateNow msgID m.header,
              m.body⟩,
             recipientsOf parseAL
              (stampedHeader cfg parseAL dateNow msgID m.header))⟩ := by
  simp [mailPoolFile, habs, poolDeliver, hrcpt]

theorem C10_no_pooled_date_witness :
    mailPoolFile cfgTorOn 1000 parseDateFix parseALFix (gs "D") (gs "M")
      sinkTrue (.message mNoDate) =
      ⟨false,
       (if sinkTrue (assemble ⟨stampedHeader cfgTorOn parseALFix (gs "D")
            (gs "M") mNoDate.header, mNoDate.body⟩) (recipientsOf parseALFix
            (stampedHeader cfgTorOn parseALFix (gs "D") (gs "M")
              mNoDate.header))
        then none else some .sendFail),
       some (assemble ⟨stampedHeader cfgTorOn parseALFix (gs "D") (gs "M")
              mNoDate.header, mNoDate.body⟩,
             recipientsOf parseALFix
              (stampedHeader cfgTorOn parseALFix (gs "D") (gs "M")
                mNoDate.header))⟩ :=
  C10_no_pooled_date cfgTorOn 1000 parseDateFix parseALFix (gs "D") (gs "M")
    sinkTrue mNoDate (by decide) (by decide)


theorem rcptAll_no_startTLS (w : SmtpWorld) (l : List GoStr) :
    SmtpEvent.startTLS ∉ (rcptAll w l).1 := by
  induction l with
  | nil => simp [rcptAll]
  | cons a rest ih =>
    by_cases h : w.rcptOk a <;> simp [rcptAll, h, ih]

theorem relayTLSPolicy_eq_true (cfg : Config) (relay : GoStr) :
    relayTLSPolicy cfg relay = true ↔
      cfg.mail.useTLS = true ∧
      ¬ (onionSuffix <:+: relay ∧ cfg.mail.disableTLSOnion = true) := by
  unfold relayTLSPolicy
  by_cases h : onionSuffix <:+: relay ∧ cfg.mail.disableTLSOnion = true
  · simp [h]
  · simp [h]

set_option maxHeartbeats 1000000 in
theorem startTLS_mem_smtpSession (cfg : Config) (w : SmtpWorld)
    (payload : GoStr) (sendTo : List GoStr) (relay : GoStr)
    (pre : List SmtpEvent) (hpre : SmtpEvent.startTLS ∉ pre) :
    SmtpEvent.startTLS ∈ (smtpSession cfg w payload sendTo relay pre).1 ↔
      w.extStartTLS = true ∧ relayTLSPolicy cfg relay = true := by
  simp only [smtpSession]
  split_ifs with h1 h2 h3 h4 h5 h6 h7 h8 h9 h10 h11 h12 <;>
    simp_all [rcptAll_no_startTLS, Bool.not_eq_true]

/-- C5: with the Tor section present and the connection phase succeeding,
STARTTLS is attempted exactly when the server advertises it and the TLS
policy allows TLS for the chosen relay (globally enabled and not switched
off by the onion TLS override); in particular a hidden-service relay with
`DisableTLSOnion` set never upgrades, however the server advertises and
whatever the global flag. -/
theorem C5_starttls_iff (cfg : Config) (w : SmtpWorld) (payload : GoStr)
    (sendTo : List GoStr) (tor : TorConfig) (relay : GoStr)
    (ht : cfg.tor = some tor)
    (hrel : relay =
      (chooseRelay cfg w.dns sendTo (sendTo.any (shouldUseTor cfg))).1)
    (hdd : w.dialDirectOk = true) (hdt : w.dialTorOk = true)
    (hcl : w.clientOk = true) :
    (SmtpEvent.startTLS ∈ (smtpRelay cfg w payload sendTo).1 ↔
      w.extStartTLS = true ∧ cfg.mail.useTLS = true ∧
        ¬ (onionSuffix <:+: relay ∧ cfg.mail.disableTLSOnion = true)) ∧
    (onionSuffix <:+ relay → cfg.mail.disableTLSOnion = true →
      SmtpEvent.startTLS ∉ (smtpRelay cfg w payload sendTo).1) := by
  subst hrel
  have hsm : smtpRelay cfg w payload sendTo =
      smtpSession cfg w payload sendTo
        (chooseRelay cfg w.dns sendTo (sendTo.any (shouldUseTor cfg))).1
        [if sendTo.any (shouldUseTor cfg) then
           SmtpEvent.dialTor
             ((chooseRelay cfg w.dns sendTo
                (sendTo.any (shouldUseTor cfg))).1 ++
              ':' :: Nat.toDigits 10
                (chooseRelay cfg w.dns sendTo
                  (sendTo.any (shouldUseTor cfg))).2)
         else
           SmtpEvent.dialDirect
             ((chooseRelay cfg w.dns sendTo
                (sendTo.any (shouldUseTor cfg))).1 ++
              ':' :: Nat.toDigits 10
                (chooseRelay cfg w.dns sendTo
                  (sendTo.any (shouldUseTor cfg))).2)] := by
    simp [smtpRelay, ht, hdd, hdt, hcl]
  have hpre : SmtpEvent.startTLS ∉
      [if sendTo.any (shouldUseTor cfg) then
         SmtpEvent.dialTor
           ((chooseRelay cfg w.dns sendTo
              (sendTo.any (shouldUseTor cfg))).1 ++
            ':' :: Nat.toDigits 10
              (chooseRelay cfg w.dns sendTo
                (sendTo.any (shouldUseTor cfg))).2)
       else
         SmtpEvent.dialDirect
           ((chooseRelay cfg w.dns sendTo
              (sendTo.any (shouldUseTor cfg))).1 ++
            ':' :: Nat.toDigits 10
              (chooseRelay cfg w.dns sendTo
                (sendTo.any (shouldUseTor cfg))).2)] := by
    by_cases hc : sendTo.any (shouldUseTor cfg) = true <;> simp [hc]
  constructor
  · rw [hsm, startTLS_mem_smtpSession cfg w payload sendTo _ _ hpre,
      relayTLSPolicy_eq_true]
  · intro hsuf hdis
    rw [hsm, startTLS_mem_smtpSession cfg w payload sendTo _ _ hpre]
    rintro ⟨hext, hpol⟩
    rw [relayTLSPolicy_eq_true] at hpol
    exact hpol.2 ⟨List.IsSuffix.isInfix hsuf, hdis⟩

theorem C5_starttls_iff_witness :
    SmtpEvent.startTLS ∈
      (smtpRelay cfgTorOn wAll (gs "payload") [gs "user@example.com"]).1 ∧
    SmtpEvent.startTLS ∉
      (smtpRelay cfgOnionRelay wAll (gs "payload")
        [gs "user@example.com"]).1 := by
  constructor
  · exact (C5_starttls_iff cfgTorOn wAll (gs "payload")
      [gs "user@example.com"] torOn (gs "relay.example.com") rfl (by decide)
      rfl rfl rfl).1.mpr (by decide)
  · exact (C5_starttls_iff cfgOnionRelay wAll (gs "payload")
      [gs "user@example.com"] torOn (gs "mail.xyz.onion") rfl (by decide)
      rfl rfl rfl).2 (by decide) rfl

theorem hdrFind_eq_of_mem (h : Header) (kv : GoStr × List GoStr)
    (hnodup : (h.map Prod.fst).Nodup) (hmem : kv ∈ h) :
    hdrFind h kv.1 = some kv.2 := by
  induction h with
  | nil => simp at hmem
  | cons e rest ih =>
    rw [List.map_cons, List.nodup_cons] at hnodup
    rcases List.mem_cons.mp hmem with he | hm
    · subst he
      simp [hdrFind]
    · have hne : e.1 ≠ kv.1 := by
        intro hek
        exact hnodup.1 (hek ▸ List.mem_map_of_mem Prod.fst hm)
      cases e with
      | mk k v => simp only [hdrFind, if_neg hne, ih hnodup.2 hm]

theorem headerGet_of_mem (h : Header) (kv : GoStr × List GoStr)
    (hnodup : (h.map Prod.fst).Nodup) (hmem : kv ∈ h) :
    headerGet h kv.1 = kv.2.headD [] := by
  rw [headerGet, hdrFind_eq_of_mem h kv hnodup hmem]
  cases kv.2 <;> rfl

theorem splitOnChar_flatten (lines : List GoStr) (body : GoStr)
    (h : ∀ l ∈ lines, '\n' ∉ l) :
    splitOnChar '\n' ((lines.map (fun l => l ++ ['\n'])).flatten ++
        '\n' :: body) =
      lines ++ [] :: splitOnChar '\n' body := by
  induction lines with
  | nil =>
    simpa using splitOnChar_append '\n' [] body (by simp)
  | cons l ls ih =>
    have hl : '\n' ∉ l := h l (List.mem_cons_self _ _)
    have hrest : ∀ x ∈ ls, '\n' ∉ x := fun x hx =>
      h x (List.mem_cons_of_mem _ hx)
    simp only [List.map_cons, List.flatten_cons, List.append_assoc,
      List.singleton_append, List.cons_append, List.nil_append]
    rw [splitOnChar_append '\n' l _ hl, ih hrest]

theorem takeWhile_lines (lines rest : List GoStr)
    (h : ∀ l ∈ lines, l ≠ []) :
    (lines ++ [] :: rest).takeWhile (fun l => ! decide (l = [])) = lines := by
  induction lines with
  | nil => simp [List.takeWhile_cons]
  | cons l ls ih =>
    have hl : l ≠ [] := h l (List.mem_cons_self _ _)
    simp only [List.cons_append, List.takeWhile_cons]
    simp [hl, ih (fun x hx => h x (List.mem_cons_of_mem _ hx))]

theorem breakAtColon_append (k v : GoStr) (hk : ':' ∉ k) :
    breakAtColon (k ++ ':' :: v) = (k, v) := by
  induction k with
  | nil => simp [breakAtColon]
  | cons c cs ih =>
    rw [List.mem_cons, not_or] at hk
    obtain ⟨h1, h2⟩ := hk
    simp only [List.cons_append, breakAtColon, List.append_eq, ih h2]
    rw [if_neg (fun he => h1 he.symm)]

theorem parseHeaderLine_rawLine (kv : GoStr × List GoStr) (hwf : wfEntry kv) :
    parseHeaderLine (rawLine kv) = (kv.1, kv.2.headD []) := by
  obtain ⟨hk1, hk2, hk3, hv1, hv2, hv3⟩ := hwf
  have hb : breakAtColon (rawLine kv) = (kv.1, ' ' :: kv.2.headD []) := by
    rw [show rawLine kv = kv.1 ++ ':' :: (' ' :: kv.2.headD []) from rfl]
    exact breakAtColon_append _ _ hk2
  have hdl : dropLS (' ' :: kv.2.headD []) = kv.2.headD [] := by
    rw [show dropLS (' ' :: kv.2.headD []) = dropLS (kv.2.headD []) from rfl,
      hv3]
  simp only [parseHeaderLine]
  rw [hb]
  dsimp only
  rw [hdl]

/-- C7 (amended): assembling a well-formed parsed message yields the
header lines of the non-`Yamn-` headers — each carrying only its FIRST
value (`Header.Get`); further values of a multi-valued header are dropped
by assembly — followed by a blank line and the body, and re-parsing the
payload's header block returns exactly those key/first-value pairs, none
of them bearing the internal `Yamn-` name. -/
theorem C7_assemble_roundtrip (m : Message)
    (hnodup : (m.header.map Prod.fst).Nodup)
    (hwf : ∀ kv ∈ m.header, wfEntry kv) :
    parseHeaderBlock (assemble m) =
      (m.header.filter (fun kv => ! decide (yamnPre <+: kv.1))).map
        (fun kv => (kv.1, kv.2.headD [])) ∧
    (∀ kv ∈ parseHeaderBlock (assemble m), ¬ (yamnPre <+: kv.1)) ∧
    splitOnChar '\n' (assemble m) =
      (m.header.filter (fun kv => ! decide (yamnPre <+: kv.1))).map
        rawLine ++ [] :: splitOnChar '\n' m.body := by
  have hassemble : assemble m =
      (((m.header.filter (fun kv => ! decide (yamnPre <+: kv.1))).map
        rawLine).map (fun l => l ++ ['\n'])).flatten ++ '\n' :: m.body := by
    unfold assemble
    congr 1
    rw [List.map_map]
    apply congrArg List.flatten
    apply List.map_congr_left
    intro kv hkv
    have hmem := List.mem_of_mem_filter hkv
    rw [headerGet_of_mem m.header kv hnodup hmem]
    simp [rawLine, Function.comp, List.append_assoc]
  have hlines1 : ∀ l ∈ (m.header.filter
      (fun kv => ! decide (yamnPre <+: kv.1))).map rawLine, '\n' ∉ l := by
    intro l hl
    obtain ⟨kv, hkv, rfl⟩ := List.mem_map.mp hl
    obtain ⟨hk1, hk2, hk3, hv1, hv2, hv3⟩ :=
      hwf kv (List.mem_of_mem_filter hkv)
    intro hcontra
    rcases List.mem_append.mp hcontra with h | h
    · exact hk3 h
    · rcases List.mem_cons.mp h with h' | h'
      · exact absurd h' (by decide)
      · rcases List.mem_cons.mp h' with h'' | h''
        · exact absurd h'' (by decide)
        · exact hv2 h''
  have hlines2 : ∀ l ∈ (m.header.filter
      (fun kv => ! decide (yamnPre <+: kv.1))).map rawLine, l ≠ [] := by
    intro l hl
    obtain ⟨kv, hkv, rfl⟩ := List.mem_map.mp hl
    simp [rawLine]
  have hsplit : splitOnChar '\n' (assemble m) =
      (m.header.filter (fun kv => ! decide (yamnPre <+: kv.1))).map
        rawLine ++ [] :: splitOnChar '\n' m.body := by
    rw [hassemble, splitOnChar_flatten _ _ hlines1]
  have hpb : parseHeaderBlock (assemble m) =
      (m.header.filter (fun kv => ! decide (yamnPre <+: kv.1))).map
        (fun kv => (kv.1, kv.2.headD [])) := by
    unfold parseHeaderBlock
    rw [hsplit, takeWhile_lines _ _ hlines2, List.map_map]
    exact List.map_congr_left (fun kv hkv =>
      parseHeaderLine_rawLine kv (hwf kv (List.mem_of_mem_filter hkv)))
  refine ⟨hpb, ?_, hsplit⟩
  intro kv hkv
  rw [hpb] at hkv
  obtain ⟨kv', hkv', heq⟩ := List.mem_map.mp hkv
  have hp := (List.mem_filter.mp hkv').2
  simp only [Bool.not_eq_eq_eq_not, Bool.not_true, decide_eq_false_iff_not] at hp
  intro hyam
  rw [← heq] at hyam
  exact hp hyam

theorem C7_assemble_roundtrip_witness :
    parseHeaderBlock (assemble mC7w) =
      (mC7w.header.filter (fun kv => ! decide (yamnPre <+: kv.1))).map
        (fun kv => (kv.1, kv.2.headD [])) ∧
    (∀ kv ∈ parseHeaderBlock (assemble mC7w), ¬ (yamnPre <+: kv.1)) ∧
    splitOnChar '\n' (assemble mC7w) =
      (mC7w.header.filter (fun kv => ! decide (yamnPre <+: kv.1))).map
        rawLine ++ [] :: splitOnChar '\n' mC7w.body :=
  C7_assemble_roundtrip mC7w (by decide) (by decide)

/-- C7 counterexample: Go's `Header.Get` writes only the FIRST value of a
multi-valued header, so re-parsing the assembled payload does not return
the original header set: the second value `b` of `X-A` is gone. -/
theorem C7_counterexample :
    parseHeaderBlock (assemble mC7) = [(gs "X-A", gs "a")] ∧
    mC7.header.filter (fun kv => ! decide (yamnPre <+: kv.1)) =
      [(gs "X-A", [gs "a", gs "b"])] ∧
    (∀ kv ∈ parseHeaderBlock (assemble mC7), kv.2 ≠ gs "b") := by decide
